import Mathlib

/-!
Shallow embedding of the json_n_xliff repository's core transformation logic.

Three pipelines are modelled:
* the record flattener of the json-to-xliff script (src/unnamed/part_000,
  lines 58-70): an array of records is turned into a flat source mapping and
  an empty-initialized target mapping;
* the unit reconstructor of the xliff-to-json script (src/unnamed/part_000,
  lines 226-260): a flat mapping is grouped back into records by a
  36-character identifier pattern, with a fallback when nothing matches;
* the consolidator (src/json-consolidation-to-xliff.js): two record arrays
  are matched by identifier and emitted as XLIFF translation units.

JavaScript values that can occur as JSON object fields are modelled by
`JVal` (strings, integer numbers, booleans, null); JavaScript objects are
modelled as association lists in insertion order, and JS truthiness,
template interpolation and the `x || ''` idiom are given explicit
counterparts.  Fallible code (the consolidator's `throw`, and the TypeError
raised by calling `.replace` on a non-string) is modelled with `Except`.
-/

/-- A JSON field value as the scripts can observe it: a string, an integer
number, a boolean, or null.  (The repository's data files only ever carry
strings; the other constructors model the guards `typeof v === 'string'`
and JS truthiness faithfully.) -/
inductive JVal where
  | str (s : String)
  | num (n : Int)
  | boolVal (b : Bool)
  | nullVal
deriving DecidableEq, Repr

/-- JS truthiness of a `JVal`: empty string, 0, false and null are falsy. -/
def jtruthy : JVal → Bool
  | JVal.str s => decide (s ≠ "")
  | JVal.num n => decide (n ≠ 0)
  | JVal.boolVal b => b
  | JVal.nullVal => false

/-- JS truthiness of a possibly-absent field (`undefined` is falsy). -/
def jtruthyO : Option JVal → Bool
  | none => false
  | some v => jtruthy v

/-- JS template-literal interpolation of a value, as in a backquoted
template string. -/
def jvalStr : JVal → String
  | JVal.str s => s
  | JVal.num n => toString n
  | JVal.boolVal b => if b then "true" else "false"
  | JVal.nullVal => "null"

/-- The JS idiom `x || ''`: a truthy value passes through, everything else
(including an absent field) becomes the empty string. -/
def jsOrEmpty : Option JVal → JVal
  | none => JVal.str ""
  | some v => if jtruthy v then v else JVal.str ""

/-- Property access `obj[k]` on a JS object modelled as an association
list; `none` is JS `undefined`. -/
def alookup {α : Type} {β : Type} [DecidableEq α] : List (α × β) → α → Option β
  | [], _ => none
  | (k, v) :: rest, q => if k = q then some v else alookup rest q

/-- Property assignment `obj[k] = v` on a JS object: an existing key keeps
its position and gets the new value, a fresh key is appended. -/
def mapSet {α : Type} {β : Type} [DecidableEq α] : List (α × β) → α → β → List (α × β)
  | [], k, v => [(k, v)]
  | (k', v') :: rest, k, v =>
      if k' = k then (k, v) :: rest else (k', v') :: mapSet rest k v

/-!  ## Record flattener (json-to-xliff, lines 58-70)  -/

/-- An input record of the json-to-xliff script; only the three fields the
script reads are modelled, each possibly absent. -/
structure JsonRecord where
  uuid : Option JVal
  title : Option JVal
  body : Option JVal
deriving DecidableEq, Repr

/-- The guard `item.uuid && item.title && item.body` of line 62. -/
def qualifies (r : JsonRecord) : Bool :=
  jtruthyO r.uuid && jtruthyO r.title && jtruthyO r.body

/-- The string a record's uuid interpolates to in the template literal
`${item.uuid}_title` (records that pass the guard have the field). -/
def uuidKey (r : JsonRecord) : String :=
  jvalStr (r.uuid.getD JVal.nullVal)

/-- One iteration of the `jsonData.forEach` loop of lines 61-70: a record
passing the truthiness guard stores its title and body into the source
mapping under `uuid_title` / `uuid_body` and empty strings under the same
keys in the target mapping. -/
def flattenStep (acc : List (String × JVal) × List (String × JVal)) (r : JsonRecord) :
    List (String × JVal) × List (String × JVal) :=
  if qualifies r then
    (mapSet (mapSet acc.1 (uuidKey r ++ "_title") (r.title.getD JVal.nullVal))
            (uuidKey r ++ "_body") (r.body.getD JVal.nullVal),
     mapSet (mapSet acc.2 (uuidKey r ++ "_title") (JVal.str ""))
            (uuidKey r ++ "_body") (JVal.str ""))
  else acc

/-- The whole flattening loop: builds the pair (sourceJson, targetJson). -/
def flatten (data : List JsonRecord) : List (String × JVal) × List (String × JVal) :=
  data.foldl flattenStep ([], [])

/-- The source-mapping entries a list of records would contribute when every
key insertion is fresh: two entries per record, in input order.  Used to
state what `flatten` produces. -/
def srcEntries : List JsonRecord → List (String × JVal)
  | [] => []
  | r :: rest =>
      (uuidKey r ++ "_title", r.title.getD JVal.nullVal) ::
      (uuidKey r ++ "_body", r.body.getD JVal.nullVal) :: srcEntries rest

/-- Target-mapping entries: the same keys as `srcEntries`, empty-string
values. -/
def tgtEntries : List JsonRecord → List (String × JVal)
  | [] => []
  | r :: rest =>
      (uuidKey r ++ "_title", JVal.str "") ::
      (uuidKey r ++ "_body", JVal.str "") :: tgtEntries rest

/-!  ## Unit reconstructor (xliff-to-json, lines 226-260)  -/

/-- Membership in the regex character class `[a-f0-9-]`. -/
def isUuidChar (c : Char) : Bool :=
  (decide ('a' ≤ c) && decide (c ≤ 'f')) ||
  (decide ('0' ≤ c) && decide (c ≤ '9')) || decide (c = '-')

/-- The match `key.match(/^([a-f0-9-]{36})_(title|body)$/)` of line 231:
the first 36 characters must all lie in `[a-f0-9-]` and the remainder must
be exactly `_title` or `_body`; on success the captured identifier and
field name are returned. -/
def matchKey (key : String) : Option (String × String) :=
  let cs := key.data
  let id := cs.take 36
  let rest := cs.drop 36
  if id.length = 36 && id.all isUuidChar then
    if rest = "_title".data then some (String.mk id, "title")
    else if rest = "_body".data then some (String.mk id, "body")
    else none
  else none

/-- An output record of the xliff-to-json script: the pushed object
`{title, body, uuid}` (title and body hold whatever the flat mapping held,
uuid is always a string). -/
structure OutRecord where
  title : JVal
  body : JVal
  uuid : String
deriving DecidableEq, Repr

/-- The matched-mode loop of lines 230-249: iterate over the keys; on the
first key whose identifier is not yet processed, push one record with
`title`/`body` looked up under `uuid_title` / `uuid_body` (the `x || ''`
idiom applied) provided at least one of the two keys is present, and mark
the identifier processed. -/
def reconGo (flat : List (String × JVal)) : List String → List String → List OutRecord
  | [], _ => []
  | k :: ks, processed =>
      match matchKey k with
      | none => reconGo flat ks processed
      | some (uuid, _field) =>
          if uuid ∈ processed then reconGo flat ks processed
          else
            if (alookup flat (uuid ++ "_title")).isSome
                || (alookup flat (uuid ++ "_body")).isSome then
              { title := jsOrEmpty (alookup flat (uuid ++ "_title")),
                body := jsOrEmpty (alookup flat (uuid ++ "_body")),
                uuid := uuid } :: reconGo flat ks (uuid :: processed)
            else reconGo flat ks processed

/-- The fallback loop of lines 252-260 (`Object.keys(...).forEach` with an
index): one record per key, the key as title, the looked-up value as body,
and a synthesized identifier from the timestamp `now` and the ordinal. -/
def fallbackGo (flat : List (String × JVal)) (now : Nat) : List String → Nat → List OutRecord
  | [], _ => []
  | k :: ks, i =>
      { title := JVal.str k,
        body := (alookup flat k).getD JVal.nullVal,
        uuid := "generated-" ++ toString now ++ "-" ++ toString i } ::
      fallbackGo flat now ks (i + 1)

/-- The fallback branch applied to the whole mapping. -/
def fallbackRecords (flat : List (String × JVal)) (now : Nat) : List OutRecord :=
  fallbackGo flat now (flat.map Prod.fst) 0

/-- The full reconstruction of lines 226-260: run the matched-mode loop
over the mapping's keys; if it produced nothing, run the fallback loop
instead.  `now` models `Date.now()`. -/
def reconstruct (flat : List (String × JVal)) (now : Nat) : List OutRecord :=
  let matched := reconGo flat (flat.map Prod.fst) []
  if matched.isEmpty then fallbackRecords flat now else matched

/-- First-occurrence order of the identifiers of the matching keys of a key
list, given the identifiers already seen.  Used to state what the
matched-mode loop produces. -/
def firstUuids : List String → List String → List String
  | [], _ => []
  | k :: ks, seen =>
      match matchKey k with
      | none => firstUuids ks seen
      | some (uuid, _field) =>
          if uuid ∈ seen then firstUuids ks seen
          else uuid :: firstUuids ks (uuid :: seen)

/-- Fallback output restated as a direct recursion over the mapping's
entries (key as title, entry value as body, synthesized identifier from the
running index).  Used to state the fallback policy. -/
def fallbackSpec : List (String × JVal) → Nat → Nat → List OutRecord
  | [], _, _ => []
  | (k, v) :: rest, now, i =>
      { title := JVal.str k, body := v,
        uuid := "generated-" ++ toString now ++ "-" ++ toString i } ::
      fallbackSpec rest now (i + 1)

/-!  ## Consolidator (src/json-consolidation-to-xliff.js)  -/

/-- A record of the consolidator: a full JS object, i.e. an association
list from field names to values in insertion order. -/
def CRec : Type := List (String × JVal)

/-- JS whitespace as far as `String.prototype.trim` and the repository's
data are concerned. -/
def isWS (c : Char) : Bool :=
  decide (c = ' ') || decide (c = Char.ofNat 9) || decide (c = Char.ofNat 10) ||
  decide (c = Char.ofNat 13) || decide (c = Char.ofNat 12) || decide (c = Char.ofNat 11)

/-- The JS `s.trim()`: strip whitespace from both ends. -/
def trimS (s : String) : String :=
  String.mk (((s.data.dropWhile isWS).reverse.dropWhile isWS).reverse)

/-- One global replacement of a single character by a string, the effect of
`text.replace(/c/g, r)` for a one-character pattern. -/
def replaceCharL : List Char → Char → String → List Char
  | [], _, _ => []
  | c :: cs, t, r => (if c = t then r.data else [c]) ++ replaceCharL cs t r

/-- String-level wrapper of `replaceCharL`. -/
def replaceChar (s : String) (t : Char) (r : String) : String :=
  String.mk (replaceCharL s.data t r)

/-- The consolidator's `escapeXml` (lines 27-35) on a string argument:
falsy (empty) text escapes to the empty string, otherwise the five XML
metacharacters are replaced in the order ampersand, less-than,
greater-than, double quote, apostrophe. -/
def escapeXml (text : String) : String :=
  if text = "" then ""
  else
    replaceChar
      (replaceChar
        (replaceChar
          (replaceChar
            (replaceChar text '&' "&amp;")
            '<' "&lt;")
          '>' "&gt;")
        (Char.ofNat 34) "&quot;")
      (Char.ofNat 39) "&apos;"

/-- The consolidator's `escapeXml` on a possibly-undefined argument:
`undefined` is falsy, so it escapes to the empty string. -/
def escapeXmlOpt : Option String → String
  | none => ""
  | some s => escapeXml s

/-- What `escapeXml` recovers from a `JVal` argument before escaping: a
string passes through, a falsy non-string returns empty (the `!text`
guard), and a truthy non-string raises a TypeError when `.replace` is
called on it — modelled as `Except.error`. -/
def jvalAsText : JVal → Except Unit String
  | JVal.str s => Except.ok s
  | v => if jtruthy v then Except.error () else Except.ok ""

/-- The guard `item.uuid` used on source items (lines 50 and 64). -/
def srcHasUuid (item : CRec) : Bool :=
  jtruthyO (alookup item "uuid")

/-- Field detection of lines 55-59: the keys of the first source item,
keeping those that are not `uuid`, hold a string, and are non-blank after
trimming. -/
def translatableFieldsOf (item : CRec) : List String :=
  (item.map Prod.fst).filter (fun k =>
    decide (k ≠ "uuid") &&
    (match alookup item k with
     | some (JVal.str s) => decide (trimS s ≠ "")
     | _ => false))

/-- One `targetData.forEach` step of lines 40-44: `targetMap.set(item.uuid,
item)` when the item's uuid is truthy. -/
def targetMapStep (m : List (JVal × CRec)) (item : CRec) : List (JVal × CRec) :=
  match alookup item "uuid" with
  | some u => if jtruthy u then mapSet m u item else m
  | none => m

/-- The target map construction of lines 39-44: an existing key is
overwritten (last occurrence wins). -/
def buildTargetMap (targetData : List CRec) : List (JVal × CRec) :=
  targetData.foldl targetMapStep []

/-- One emitted translation unit, carrying the raw (pre-escaping) id,
source text, target text and note of lines 84-91. -/
structure TransUnit where
  id : String
  src : String
  tgt : String
  note : String
deriving DecidableEq, Repr

/-- The per-field body of lines 75-93: skip unless the source value is a
string that is non-blank after trimming; otherwise emit one unit whose
target is `targetText || ''` and whose note names the field and the uuid.
The escaping of the target value and of the uuid can raise a TypeError on
a truthy non-string. -/
def fieldUnit (uuidV : JVal) (sourceItem targetItem : CRec) (fieldName : String) :
    Except Unit (List TransUnit) :=
  match alookup sourceItem fieldName with
  | some (JVal.str s) =>
      if trimS s = "" then Except.ok []
      else
        match jvalAsText (jsOrEmpty (alookup targetItem fieldName)), jvalAsText uuidV with
        | Except.ok tgtText, Except.ok uuidText =>
            Except.ok [{ id := jvalStr uuidV ++ "_" ++ fieldName,
                         src := s,
                         tgt := tgtText,
                         note := fieldName ++ " for UUID: " ++ uuidText }]
        | Except.error e, _ => Except.error e
        | _, Except.error e => Except.error e
  | _ => Except.ok []

/-- The `translatableFields.forEach` loop for one matched pair: units of
all fields in order, a TypeError aborting the run. -/
def fieldsUnits (uuidV : JVal) (sourceItem targetItem : CRec) :
    List String → Except Unit (List TransUnit)
  | [] => Except.ok []
  | f :: fs =>
      match fieldUnit uuidV sourceItem targetItem f with
      | Except.error e => Except.error e
      | Except.ok us =>
          match fieldsUnits uuidV sourceItem targetItem fs with
          | Except.error e => Except.error e
          | Except.ok rest => Except.ok (us ++ rest)

/-- The warning of line 70 for a source uuid with no target counterpart. -/
def missingTargetWarning (u : JVal) : String :=
  "Warning: No target translation found for UUID: " ++ jvalStr u

/-- The per-source-item body of lines 63-94: skip items without a truthy
uuid; warn and skip items whose uuid has no entry in the target map;
otherwise emit the units of every translatable field.  Returns the emitted
units and the recorded warnings. -/
def itemUnits (translatableFields : List String) (targetMap : List (JVal × CRec))
    (sourceItem : CRec) : Except Unit (List TransUnit × List String) :=
  match alookup sourceItem "uuid" with
  | none => Except.ok ([], [])
  | some u =>
      if jtruthy u then
        match alookup targetMap u with
        | none => Except.ok ([], [missingTargetWarning u])
        | some targetItem =>
            match fieldsUnits u sourceItem targetItem translatableFields with
            | Except.error e => Except.error e
            | Except.ok us => Except.ok (us, [])
      else Except.ok ([], [])

/-- The `sourceData.forEach` loop: units and warnings of all source items
in order. -/
def consolidateItems (translatableFields : List String) (targetMap : List (JVal × CRec)) :
    List CRec → Except Unit (List TransUnit × List String)
  | [] => Except.ok ([], [])
  | item :: rest =>
      match itemUnits translatableFields targetMap item with
      | Except.error e => Except.error e
      | Except.ok (us, ws) =>
          match consolidateItems translatableFields targetMap rest with
          | Except.error e => Except.error e
          | Except.ok (us2, ws2) => Except.ok (us ++ us2, ws ++ ws2)

/-- How a run of `generateXliffContent` can fail: the explicit
`throw new Error('No valid source items found with uuid field')` of line
52, or a TypeError from escaping a truthy non-string. -/
inductive GenErr where
  | noValidSource
  | typeError
deriving DecidableEq, Repr

/-- The unit-producing core of `generateXliffContent` (lines 37-94): find
the first source item with a truthy uuid (throwing if there is none),
detect the translatable fields from it, and run the emission loop over all
source items against the target map. -/
def generateXliffUnits (sourceData targetData : List CRec) :
    Except GenErr (List TransUnit × List String) :=
  match sourceData.find? srcHasUuid with
  | none => Except.error GenErr.noValidSource
  | some firstItem =>
      match consolidateItems (translatableFieldsOf firstItem) (buildTargetMap targetData)
          sourceData with
      | Except.error _ => Except.error GenErr.typeError
      | Except.ok r => Except.ok r

deriving instance DecidableEq for Except

example : escapeXml "a & b < c" = "a &amp; b &lt; c" := by decide

example :
    generateXliffUnits
      [[("uuid", JVal.str "X"), ("title", JVal.str "A"), ("body", JVal.str "B")]]
      [[("uuid", JVal.str "X"), ("title", JVal.str "가"), ("body", JVal.str "나")]] =
    Except.ok
      ([{ id := "X_title", src := "A", tgt := "가", note := "title for UUID: X" },
        { id := "X_body", src := "B", tgt := "나", note := "body for UUID: X" }], []) := by
  decide

/-!  ## Helper lemmas: association lists  -/

theorem alookup_cons_ne {α β : Type} [DecidableEq α] {k q : α} {v : β}
    {m : List (α × β)} (h : k ≠ q) : alookup ((k, v) :: m) q = alookup m q := by
  simp [alookup, h]

theorem alookup_append_left {α β : Type} [DecidableEq α] {m : List (α × β)}
    {q : α} {v : β} (m' : List (α × β)) (h : alookup m q = some v) :
    alookup (m ++ m') q = some v := by
  induction m with
  | nil => simp [alookup] at h
  | cons p rest ih =>
      obtain ⟨k, w⟩ := p
      by_cases hk : k = q
      · subst hk
        simp [alookup] at h ⊢
        exact h
      · rw [List.cons_append, alookup_cons_ne hk] at *
        exact ih h

theorem alookup_append_right {α β : Type} [DecidableEq α] {m : List (α × β)}
    {q : α} (m' : List (α × β)) (h : alookup m q = none) :
    alookup (m ++ m') q = alookup m' q := by
  induction m with
  | nil => simp
  | cons p rest ih =>
      obtain ⟨k, w⟩ := p
      by_cases hk : k = q
      · subst hk; simp [alookup] at h
      · rw [List.cons_append, alookup_cons_ne hk]
        rw [alookup_cons_ne hk] at h
        exact ih h

theorem alookup_isSome_of_mem_keys {α β : Type} [DecidableEq α] {m : List (α × β)}
    {q : α} (h : q ∈ m.map Prod.fst) : (alookup m q).isSome := by
  induction m with
  | nil => simp at h
  | cons p rest ih =>
      obtain ⟨k, w⟩ := p
      by_cases hk : k = q
      · subst hk; simp [alookup]
      · rw [alookup_cons_ne hk]
        rcases List.mem_map.mp h with ⟨e, he, hfst⟩
        rcases List.mem_cons.mp he with rfl | hmem
        · exact absurd hfst hk
        · exact ih (List.mem_map.mpr ⟨e, hmem, hfst⟩)

theorem alookup_filter {β : Type} {m : List (String × β)} {q : String}
    {p : String → Bool} (hq : p q = true) :
    alookup (m.filter (fun e => p e.1)) q = alookup m q := by
  induction m with
  | nil => simp
  | cons e rest ih =>
      obtain ⟨k, w⟩ := e
      by_cases hk : k = q
      · subst hk
        simp only [List.filter_cons, hq, if_pos]
        simp [alookup]
      · by_cases hp : p k
        · simp only [List.filter_cons, hp, if_pos]
          rw [alookup_cons_ne hk, alookup_cons_ne hk]
          exact ih
        · simp only [List.filter_cons, hp]
          simp only [Bool.false_eq_true, if_neg, ite_false]
          rw [alookup_cons_ne hk]
          exact ih

theorem mapSet_fresh {α β : Type} [DecidableEq α] {m : List (α × β)} {k : α}
    (v : β) (h : ∀ p ∈ m, p.1 ≠ k) : mapSet m k v = m ++ [(k, v)] := by
  induction m with
  | nil => rfl
  | cons p rest ih =>
      obtain ⟨k', w⟩ := p
      have hk : k' ≠ k := h (k', w) (by simp)
      simp only [mapSet]
      rw [if_neg hk, ih (fun p hp => h p (by simp [hp])), List.cons_append]

theorem alookup_mapSet {α β : Type} [DecidableEq α] (m : List (α × β)) (k q : α)
    (v : β) : alookup (mapSet m k v) q = if k = q then some v else alookup m q := by
  induction m with
  | nil => simp [mapSet, alookup]
  | cons p rest ih =>
      obtain ⟨k', w⟩ := p
      by_cases hk : k' = k
      · subst hk
        by_cases hq : k' = q
        · subst hq; simp [mapSet, alookup]
        · simp [mapSet, alookup, hq]
      · by_cases hq : k' = q
        · subst hq
          simp only [mapSet]
          rw [if_neg hk]
          have hkq : k ≠ k' := fun h => hk h.symm
          simp [alookup, hkq]
        · simp only [mapSet]
          rw [if_neg hk, alookup_cons_ne hq, alookup_cons_ne hq, ih]

/-!  ## Helper lemmas: synthesized keys  -/

theorem string_append_right_cancel {u v s : String} (h : u ++ s = v ++ s) :
    u = v := by
  have hd : u.data ++ s.data = v.data ++ s.data := by
    have := congrArg String.data h
    simpa [String.data_append] using this
  exact String.ext (List.append_cancel_right hd)

theorem key_title_inj {u v : String} (h : u ++ "_title" = v ++ "_title") :
    u = v := string_append_right_cancel h

theorem key_body_inj {u v : String} (h : u ++ "_body" = v ++ "_body") :
    u = v := string_append_right_cancel h

theorem key_title_ne_body (u v : String) : u ++ "_title" ≠ v ++ "_body" := by
  intro h
  have hd : u.data ++ "_title".data = v.data ++ "_body".data := by
    have := congrArg String.data h
    simpa [String.data_append] using this
  have h1 : (u.data ++ "_title".data).getLast? = some 'e' := by
    rw [List.getLast?_append]; rfl
  have h2 : (v.data ++ "_body".data).getLast? = some 'y' := by
    rw [List.getLast?_append]; rfl
  rw [hd, h2] at h1
  exact absurd h1 (by decide)

theorem key_title_ne_body_self (u v : String) : u ++ "_body" ≠ v ++ "_title" :=
  fun h => key_title_ne_body v u h.symm

/-!  ## Helper lemmas: the identifier pattern  -/

/-- Characterization of the reconstructor's regex: a key matches exactly
when it decomposes as a 36-character identifier over `[a-f0-9-]` followed
by `_title` or `_body`. -/
theorem matchKey_eq_some {k u f : String} :
    matchKey k = some (u, f) ↔
      u.data.length = 36 ∧ u.data.all isUuidChar ∧
        ((f = "title" ∧ k = u ++ "_title") ∨ (f = "body" ∧ k = u ++ "_body")) := by
  constructor
  · intro h
    unfold matchKey at h
    by_cases hc : (k.data.take 36).length = 36 ∧ (k.data.take 36).all isUuidChar
    · rw [if_pos (by simp [hc.1, hc.2])] at h
      by_cases ht : k.data.drop 36 = "_title".data
      · rw [if_pos ht] at h
        obtain ⟨hu, hf⟩ := Prod.mk.injEq .. ▸ Option.some.injEq .. ▸ h
        refine ⟨?_, ?_, Or.inl ⟨hf.symm, ?_⟩⟩
        · rw [← hu]; exact hc.1
        · rw [← hu]; exact hc.2
        · have : k.data = (k.data.take 36) ++ "_title".data := by
            rw [← ht, List.take_append_drop]
          apply String.ext
          rw [String.data_append, ← hu]
          exact this
      · rw [if_neg ht] at h
        by_cases hb : k.data.drop 36 = "_body".data
        · rw [if_pos hb] at h
          obtain ⟨hu, hf⟩ := Prod.mk.injEq .. ▸ Option.some.injEq .. ▸ h
          refine ⟨?_, ?_, Or.inr ⟨hf.symm, ?_⟩⟩
          · rw [← hu]; exact hc.1
          · rw [← hu]; exact hc.2
          · have : k.data = (k.data.take 36) ++ "_body".data := by
              rw [← hb, List.take_append_drop]
            apply String.ext
            rw [String.data_append, ← hu]
            exact this
        · rw [if_neg hb] at h
          exact absurd h (by simp)
    · rw [if_neg (by simpa [Bool.and_eq_true, decide_eq_true_eq] using hc)] at h
      exact absurd h (by simp)
  · rintro ⟨hlen, hall, hcase⟩
    rcases hcase with ⟨hf, hk⟩ | ⟨hf, hk⟩ <;> subst hf <;> subst hk
    · have hdata : (u ++ "_title").data = u.data ++ "_title".data := String.data_append ..
      have htake : List.take 36 (u.data ++ "_title".data) = u.data := by
        rw [← hlen, List.take_left]
      have hdrop : List.drop 36 (u.data ++ "_title".data) = "_title".data := by
        rw [← hlen, List.drop_left]
      unfold matchKey
      simp only [hdata, htake, hdrop]
      simp [hlen, hall]
    · have hdata : (u ++ "_body").data = u.data ++ "_body".data := String.data_append ..
      have htake : List.take 36 (u.data ++ "_body".data) = u.data := by
        rw [← hlen, List.take_left]
      have hdrop : List.drop 36 (u.data ++ "_body".data) = "_body".data := by
        rw [← hlen, List.drop_left]
      unfold matchKey
      simp only [hdata, htake, hdrop]
      simp [hlen, hall]

/-- The identifier captured from a matching key of the shape
`u ++ "_title"` with a 36-character identifier is `u` itself. -/
theorem matchKey_title (u : String) (hlen : u.data.length = 36)
    (hall : u.data.all isUuidChar) :
    matchKey (u ++ "_title") = some (u, "title") :=
  matchKey_eq_some.mpr ⟨hlen, hall, Or.inl ⟨rfl, rfl⟩⟩

/-- Likewise for `u ++ "_body"`. -/
theorem matchKey_body (u : String) (hlen : u.data.length = 36)
    (hall : u.data.all isUuidChar) :
    matchKey (u ++ "_body") = some (u, "body") :=
  matchKey_eq_some.mpr ⟨hlen, hall, Or.inr ⟨rfl, rfl⟩⟩

/-!  ## Helper lemmas: the matched-mode loop  -/

/-- The matched-mode loop only depends on the lookups under the
identifiers of the matching keys and on which of those identifiers are
already processed. -/
theorem reconGo_congr {flatA flatB : List (String × JVal)} :
    ∀ (ks : List String) (p1 p2 : List String),
      (∀ k ∈ ks, ∀ u f, matchKey k = some (u, f) →
        alookup flatA (u ++ "_title") = alookup flatB (u ++ "_title") ∧
        alookup flatA (u ++ "_body") = alookup flatB (u ++ "_body") ∧
        (u ∈ p1 ↔ u ∈ p2)) →
      reconGo flatA ks p1 = reconGo flatB ks p2 := by
  intro ks
  induction ks with
  | nil => intro p1 p2 _; rfl
  | cons k ks ih =>
      intro p1 p2 h
      have hrest : ∀ k' ∈ ks, ∀ u f, matchKey k' = some (u, f) →
          alookup flatA (u ++ "_title") = alookup flatB (u ++ "_title") ∧
          alookup flatA (u ++ "_body") = alookup flatB (u ++ "_body") ∧
          (u ∈ p1 ↔ u ∈ p2) :=
        fun k' hk' => h k' (List.mem_cons_of_mem _ hk')
      cases hm : matchKey k with
      | none =>
          simp only [reconGo, hm]
          exact ih p1 p2 hrest
      | some uf =>
          obtain ⟨u, f⟩ := uf
          obtain ⟨ht, hb, hp⟩ := h k (by simp) u f hm
          by_cases hmem : u ∈ p1
          · have hmem2 : u ∈ p2 := hp.mp hmem
            simp only [reconGo, hm, if_pos hmem, if_pos hmem2]
            exact ih p1 p2 hrest
          · have hmem2 : u ∉ p2 := fun hc => hmem (hp.mpr hc)
            simp only [reconGo, hm, if_neg hmem, if_neg hmem2, ht, hb]
            by_cases hcond : (alookup flatB (u ++ "_title")).isSome
                || (alookup flatB (u ++ "_body")).isSome
            · rw [if_pos hcond, if_pos hcond]
              congr 1
              refine ih (u :: p1) (u :: p2) (fun k' hk' u' f' hm' => ?_)
              obtain ⟨ht', hb', hp'⟩ := hrest k' hk' u' f' hm'
              exact ⟨ht', hb', by simp [hp']⟩
            · rw [if_neg hcond, if_neg hcond]
              exact ih p1 p2 hrest

/-- When no key matches, the matched-mode loop produces nothing. -/
theorem reconGo_nil_of_nomatch {flat : List (String × JVal)} :
    ∀ (ks : List String) (p : List String),
      (∀ k ∈ ks, matchKey k = none) → reconGo flat ks p = [] := by
  intro ks
  induction ks with
  | nil => intro p _; rfl
  | cons k ks ih =>
      intro p h
      simp only [reconGo, h k (by simp)]
      exact ih p (fun k' hk' => h k' (List.mem_cons_of_mem _ hk'))

/-- When some key of the mapping matches with an unprocessed identifier,
the matched-mode loop produces at least one record. -/
theorem reconGo_ne_nil {flat : List (String × JVal)} :
    ∀ (ks : List String) (p : List String),
      (∀ k ∈ ks, k ∈ flat.map Prod.fst) →
      (∃ k ∈ ks, ∃ u f, matchKey k = some (u, f) ∧ u ∉ p) →
      reconGo flat ks p ≠ [] := by
  intro ks
  induction ks with
  | nil => rintro p _ ⟨k, hk, _⟩; simp at hk
  | cons k ks ih =>
      rintro p hkeys ⟨k0, hk0, u0, f0, hm0, hp0⟩
      cases hm : matchKey k with
      | none =>
          simp only [reconGo, hm]
          rcases List.mem_cons.mp hk0 with rfl | hk0'
          · rw [hm0] at hm; exact absurd hm (by simp)
          · exact ih p (fun k' hk' => hkeys k' (List.mem_cons_of_mem _ hk'))
              ⟨k0, hk0', u0, f0, hm0, hp0⟩
      | some uf =>
          obtain ⟨u, f⟩ := uf
          by_cases hmem : u ∈ p
          · simp only [reconGo, hm, if_pos hmem]
            rcases List.mem_cons.mp hk0 with rfl | hk0'
            · rw [hm0] at hm
              obtain ⟨hu, _⟩ := Prod.mk.injEq .. ▸ Option.some.injEq .. ▸ hm
              exact absurd hp0 (by rw [hu]; simpa using hmem)
            · exact ih p (fun k' hk' => hkeys k' (List.mem_cons_of_mem _ hk'))
                ⟨k0, hk0', u0, f0, hm0, hp0⟩
          · have hkor := (matchKey_eq_some.mp hm).2.2
            have hsome : ((alookup flat (u ++ "_title")).isSome
                || (alookup flat (u ++ "_body")).isSome) = true := by
              have hkmem := alookup_isSome_of_mem_keys (hkeys k (by simp))
              rcases hkor with ⟨_, hk⟩ | ⟨_, hk⟩
              · rw [hk] at hkmem; simp [hkmem]
              · rw [hk] at hkmem; simp [hkmem]
            simp only [reconGo, hm, if_neg hmem, if_pos hsome]
            exact List.cons_ne_nil _ _

/-- The matched-mode loop over keys that all belong to the mapping
produces exactly one record per identifier, in first-occurrence order,
with title and body looked up under the synthesized keys (empty string for
an absent one). -/
theorem reconGo_eq_firstUuids {flat : List (String × JVal)} :
    ∀ (ks : List String) (seen : List String),
      (∀ k ∈ ks, k ∈ flat.map Prod.fst) →
      reconGo flat ks seen =
        (firstUuids ks seen).map (fun u =>
          { title := jsOrEmpty (alookup flat (u ++ "_title")),
            body := jsOrEmpty (alookup flat (u ++ "_body")),
            uuid := u }) := by
  intro ks
  induction ks with
  | nil => intro seen _; rfl
  | cons k ks ih =>
      intro seen h
      have hrest : ∀ k' ∈ ks, k' ∈ flat.map Prod.fst :=
        fun k' hk' => h k' (List.mem_cons_of_mem _ hk')
      cases hm : matchKey k with
      | none =>
          simp only [reconGo, firstUuids, hm]
          exact ih seen hrest
      | some uf =>
          obtain ⟨u, f⟩ := uf
          by_cases hmem : u ∈ seen
          · simp only [reconGo, firstUuids, hm, if_pos hmem]
            exact ih seen hrest
          · have hkor := (matchKey_eq_some.mp hm).2.2
            have hsome : ((alookup flat (u ++ "_title")).isSome
                || (alookup flat (u ++ "_body")).isSome) = true := by
              have hkmem := alookup_isSome_of_mem_keys (h k (by simp))
              rcases hkor with ⟨_, hk⟩ | ⟨_, hk⟩
              · rw [hk] at hkmem; simp [hkmem]
              · rw [hk] at hkmem; simp [hkmem]
            simp only [reconGo, firstUuids, hm, if_neg hmem, if_pos hsome, List.map_cons]
            congr 1
            exact ih (u :: seen) hrest

/-- Identifiers collected in first-occurrence order are distinct and avoid
the already-seen ones. -/
theorem firstUuids_nodup :
    ∀ (ks seen : List String),
      (firstUuids ks seen).Nodup ∧ ∀ u ∈ firstUuids ks seen, u ∉ seen := by
  intro ks
  induction ks with
  | nil => intro seen; exact ⟨List.nodup_nil, by simp [firstUuids]⟩
  | cons k ks ih =>
      intro seen
      cases hm : matchKey k with
      | none => simpa only [firstUuids, hm] using ih seen
      | some uf =>
          obtain ⟨u, f⟩ := uf
          by_cases hmem : u ∈ seen
          · simpa only [firstUuids, hm, if_pos hmem] using ih seen
          · obtain ⟨hnd, hns⟩ := ih (u :: seen)
            simp only [firstUuids, hm, if_neg hmem]
            constructor
            · exact List.nodup_cons.mpr
                ⟨fun hc => (hns u hc) (by simp), hnd⟩
            · intro u' hu'
              rcases List.mem_cons.mp hu' with rfl | hu''
              · exact hmem
              · exact fun hc => (hns u' hu'') (by simp [hc])

/-- Non-matching keys are simply skipped by the matched-mode loop. -/
theorem reconGo_filter_keys {flat : List (String × JVal)} :
    ∀ (ks : List String) (p : List String),
      reconGo flat ks p =
        reconGo flat (ks.filter (fun k => (matchKey k).isSome)) p := by
  intro ks
  induction ks with
  | nil => intro p; rfl
  | cons k ks ih =>
      intro p
      cases hm : matchKey k with
      | none =>
          have : (matchKey k).isSome = false := by simp [hm]
          simp only [reconGo, hm, List.filter_cons, this]
          exact ih p
      | some uf =>
          obtain ⟨u, f⟩ := uf
          have hsome : (matchKey k).isSome = true := by simp [hm]
          simp only [List.filter_cons, hsome, if_pos]
          by_cases hmem : u ∈ p
          · simp only [reconGo, hm, if_pos hmem]
            exact ih p
          · simp only [reconGo, hm, if_neg hmem]
            by_cases hcond : (alookup flat (u ++ "_title")).isSome
                || (alookup flat (u ++ "_body")).isSome
            · rw [if_pos hcond, if_pos hcond]
              congr 1
              exact ih (u :: p)
            · rw [if_neg hcond, if_neg hcond]
              exact ih p

/-!  ## Helper lemmas: the flattener  -/

theorem alookup_eq_none {α β : Type} [DecidableEq α] {m : List (α × β)} {q : α}
    (h : q ∉ m.map Prod.fst) : alookup m q = none := by
  induction m with
  | nil => rfl
  | cons p rest ih =>
      obtain ⟨k, w⟩ := p
      have hk : k ≠ q := fun hc => h (by simp [hc])
      rw [alookup_cons_ne hk]
      exact ih (fun hc => h (by simp; right; simpa using hc))

theorem srcEntries_keys_eq_tgtEntries_keys :
    ∀ l : List JsonRecord, (srcEntries l).map Prod.fst = (tgtEntries l).map Prod.fst := by
  intro l
  induction l with
  | nil => rfl
  | cons r rest ih => simp [srcEntries, tgtEntries, ih]

theorem srcEntries_length : ∀ l : List JsonRecord, (srcEntries l).length = 2 * l.length := by
  intro l
  induction l with
  | nil => rfl
  | cons r rest ih => simp [srcEntries, ih]; ring

/-- The flattening fold appends, for each qualifying record in order, its
two source entries and its two empty target entries, provided the
synthesized keys are fresh: qualifying records have pairwise distinct
interpolated uuids and none of their keys is already present in the
accumulators. -/
theorem flatten_fold_spec :
    ∀ (data : List JsonRecord) (src tgt : List (String × JVal)),
      ((data.filter qualifies).map uuidKey).Nodup →
      (∀ r ∈ data, qualifies r →
        (∀ p ∈ src, p.1 ≠ uuidKey r ++ "_title" ∧ p.1 ≠ uuidKey r ++ "_body") ∧
        (∀ p ∈ tgt, p.1 ≠ uuidKey r ++ "_title" ∧ p.1 ≠ uuidKey r ++ "_body")) →
      data.foldl flattenStep (src, tgt) =
        (src ++ srcEntries (data.filter qualifies),
         tgt ++ tgtEntries (data.filter qualifies)) := by
  intro data
  induction data with
  | nil => intro src tgt _ _; simp [srcEntries, tgtEntries]
  | cons r rest ih =>
      intro src tgt hnd hfresh
      by_cases hq : qualifies r
      · have hstep : flattenStep (src, tgt) r =
            (src ++ [(uuidKey r ++ "_title", r.title.getD JVal.nullVal),
                     (uuidKey r ++ "_body", r.body.getD JVal.nullVal)],
             tgt ++ [(uuidKey r ++ "_title", JVal.str ""),
                     (uuidKey r ++ "_body", JVal.str "")]) := by
          obtain ⟨hsrc, htgt⟩ := hfresh r (by simp) hq
          simp only [flattenStep, if_pos hq]
          rw [mapSet_fresh _ (fun p hp => (hsrc p hp).1),
              mapSet_fresh _ (fun p hp => by
                rcases List.mem_append.mp hp with hp' | hp'
                · exact (hsrc p hp').2
                · simp at hp'
                  rw [hp']
                  exact key_title_ne_body _ _),
              mapSet_fresh _ (fun p hp => (htgt p hp).1),
              mapSet_fresh _ (fun p hp => by
                rcases List.mem_append.mp hp with hp' | hp'
                · exact (htgt p hp').2
                · simp at hp'
                  rw [hp']
                  exact key_title_ne_body _ _)]
          simp
        have hfilter : (r :: rest).filter qualifies = r :: rest.filter qualifies := by
          simp [List.filter_cons, hq]
        rw [hfilter, List.map_cons] at hnd
        have hnotmem := (List.nodup_cons.mp hnd).1
        have hndtail := (List.nodup_cons.mp hnd).2
        have hrest := ih
          (src ++ [(uuidKey r ++ "_title", r.title.getD JVal.nullVal),
                   (uuidKey r ++ "_body", r.body.getD JVal.nullVal)])
          (tgt ++ [(uuidKey r ++ "_title", JVal.str ""),
                   (uuidKey r ++ "_body", JVal.str "")])
          hndtail
          (by
            intro r' hr' hq'
            have hr'mem : r' ∈ r :: rest := List.mem_cons_of_mem _ hr'
            have hu : uuidKey r' ≠ uuidKey r := by
              intro hc
              apply hnotmem
              have : uuidKey r' ∈ (rest.filter qualifies).map uuidKey :=
                List.mem_map.mpr ⟨r', List.mem_filter.mpr ⟨hr', hq'⟩, rfl⟩
              rwa [hc] at this
            obtain ⟨hsrc, htgt⟩ := hfresh r' hr'mem hq'
            constructor
            · intro p hp
              rcases List.mem_append.mp hp with hp' | hp'
              · exact hsrc p hp'
              · simp at hp'
                rcases hp' with hp' | hp' <;> rw [hp'] <;> constructor
                · exact fun hc => hu (key_title_inj hc).symm
                · exact key_title_ne_body _ _
                · exact key_title_ne_body_self _ _
                · exact fun hc => hu (key_body_inj hc).symm
            · intro p hp
              rcases List.mem_append.mp hp with hp' | hp'
              · exact htgt p hp'
              · simp at hp'
                rcases hp' with hp' | hp' <;> rw [hp'] <;> constructor
                · exact fun hc => hu (key_title_inj hc).symm
                · exact key_title_ne_body _ _
                · exact key_title_ne_body_self _ _
                · exact fun hc => hu (key_body_inj hc).symm)
        rw [List.foldl_cons, hstep, hrest, hfilter]
        simp [srcEntries, tgtEntries]
      · have hfilter : (r :: rest).filter qualifies = rest.filter qualifies := by
          simp [List.filter_cons, hq]
        rw [List.foldl_cons]
        have hstep : flattenStep (src, tgt) r = (src, tgt) := by
          simp [flattenStep, hq]
        rw [hstep, hfilter]
        exact ih src tgt (hfilter ▸ hnd)
          (fun r' hr' hq' => hfresh r' (List.mem_cons_of_mem _ hr') hq')

/-- The flattener on data whose qualifying records have pairwise distinct
interpolated uuids: exactly the two entries per qualifying record, in
input order, in both mappings. -/
theorem flatten_eq {data : List JsonRecord}
    (hnd : ((data.filter qualifies).map uuidKey).Nodup) :
    flatten data = (srcEntries (data.filter qualifies),
                    tgtEntries (data.filter qualifies)) := by
  have := flatten_fold_spec data [] [] hnd (by intro r _ _; simp)
  simpa [flatten] using this

/-!  ## Helper lemmas: the fallback loop  -/

theorem fallbackGo_eq_spec :
    ∀ (rest pre : List (String × JVal)) (now i : Nat),
      ((pre ++ rest).map Prod.fst).Nodup →
      fallbackGo (pre ++ rest) now (rest.map Prod.fst) i = fallbackSpec rest now i := by
  intro rest
  induction rest with
  | nil => intro pre now i _; rfl
  | cons e rest2 ih =>
      intro pre now i hnd
      obtain ⟨k, v⟩ := e
      have hkpre : k ∉ pre.map Prod.fst := by
        intro hc
        have := List.nodup_append.mp (by simpa using hnd)
        exact this.2.2 hc (by simp)
      have hlook : alookup (pre ++ (k, v) :: rest2) k = some v := by
        rw [alookup_append_right _ (alookup_eq_none hkpre)]
        simp [alookup]
      simp only [List.map_cons, fallbackGo, hlook, Option.getD_some, fallbackSpec]
      congr 1
      have hre : pre ++ (k, v) :: rest2 = (pre ++ [(k, v)]) ++ rest2 := by simp
      rw [hre]
      exact ih (pre ++ [(k, v)]) now (i + 1) (by rw [← hre]; exact hnd)

theorem fallbackRecords_eq_spec {flat : List (String × JVal)} (now : Nat)
    (hnd : (flat.map Prod.fst).Nodup) :
    fallbackRecords flat now = fallbackSpec flat now 0 := by
  have := fallbackGo_eq_spec flat [] now 0 (by simpa using hnd)
  simpa [fallbackRecords] using this

/-!  ## Helper lemmas: escaping  -/

theorem replaceCharL_id {l : List Char} {t : Char} {r : String}
    (h : ∀ c ∈ l, c ≠ t) : replaceCharL l t r = l := by
  induction l with
  | nil => rfl
  | cons c cs ih =>
      have hc : c ≠ t := h c (by simp)
      simp only [replaceCharL]
      rw [if_neg hc, List.singleton_append, ih (fun c' hc' => h c' (by simp [hc']))]

theorem replaceChar_id {s : String} {t : Char} {r : String}
    (h : ∀ c ∈ s.data, c ≠ t) : replaceChar s t r = s := by
  unfold replaceChar
  rw [replaceCharL_id h]

/-- Escaping text free of the five metacharacters returns it unchanged. -/
theorem escapeXml_id {s : String}
    (h : ∀ c ∈ s.data, c ≠ '&' ∧ c ≠ '<' ∧ c ≠ '>' ∧
      c ≠ Char.ofNat 34 ∧ c ≠ Char.ofNat 39) : escapeXml s = s := by
  by_cases hs : s = ""
  · subst hs; rfl
  · unfold escapeXml
    rw [if_neg hs,
        replaceChar_id (fun c hc => (h c hc).1),
        replaceChar_id (fun c hc => (h c hc).2.1),
        replaceChar_id (fun c hc => (h c hc).2.2.1),
        replaceChar_id (fun c hc => (h c hc).2.2.2.1),
        replaceChar_id (fun c hc => (h c hc).2.2.2.2)]

/-!  ## Specification-side definitions used for comparison  -/

/-- Modelled from the spec's words (§4.2): the canonical UUID textual
shape — 32 hex digits arranged in 8-4-4-4-12 groups separated by hyphens,
hex digits case-insensitive.  Used only to compare the spec's claimed
identifier shape with the shape the code accepts. -/
def specCanonicalUuid (s : String) : Bool :=
  let cs := s.data
  let isHex : Char → Bool := fun c =>
    (decide ('0' ≤ c) && decide (c ≤ '9')) ||
    (decide ('a' ≤ c) && decide (c ≤ 'f')) ||
    (decide ('A' ≤ c) && decide (c ≤ 'F'))
  decide (cs.length = 36) &&
    (List.range 36).all (fun i =>
      if i = 8 ∨ i = 13 ∨ i = 18 ∨ i = 23 then decide (cs.getD i ' ' = '-')
      else isHex (cs.getD i ' '))

/-- A record the round-trip claim quantifies over: a uuid string of the
shape the reconstructor accepts, and non-empty title and body strings. -/
def validRecord (r : JsonRecord) : Bool :=
  (match r.uuid with
   | some (JVal.str u) => decide (u.data.length = 36) && u.data.all isUuidChar
   | _ => false) &&
  (match r.title with
   | some (JVal.str t) => decide (t ≠ "")
   | _ => false) &&
  (match r.body with
   | some (JVal.str b) => decide (b ≠ "")
   | _ => false)

theorem validRecord_spec {r : JsonRecord} (h : validRecord r = true) :
    (uuidKey r).data.length = 36 ∧ (uuidKey r).data.all isUuidChar ∧
    r.uuid = some (JVal.str (uuidKey r)) ∧
    (∃ t, r.title = some (JVal.str t) ∧ t ≠ "") ∧
    (∃ b, r.body = some (JVal.str b) ∧ b ≠ "") := by
  unfold validRecord at h
  simp only [Bool.and_eq_true] at h
  obtain ⟨⟨hu, ht⟩, hb⟩ := h
  cases huu : r.uuid with
  | none => rw [huu] at hu; simp at hu
  | some v =>
      cases v with
      | str u =>
          have hkey : uuidKey r = u := by simp [uuidKey, huu, jvalStr]
          rw [huu] at hu
          simp only [Bool.and_eq_true, decide_eq_true_eq] at hu
          refine ⟨by rw [hkey]; exact hu.1, by rw [hkey]; exact hu.2,
                  by rw [hkey], ?_, ?_⟩
          · cases htt : r.title with
            | none => rw [htt] at ht; simp at ht
            | some w =>
                cases w with
                | str t =>
                    rw [htt] at ht
                    simp only [decide_eq_true_eq] at ht
                    exact ⟨t, rfl, ht⟩
                | num n => rw [htt] at ht; simp at ht
                | boolVal b2 => rw [htt] at ht; simp at ht
                | nullVal => rw [htt] at ht; simp at ht
          · cases hbb : r.body with
            | none => rw [hbb] at hb; simp at hb
            | some w =>
                cases w with
                | str b2 =>
                    rw [hbb] at hb
                    simp only [decide_eq_true_eq] at hb
                    exact ⟨b2, rfl, hb⟩
                | num n => rw [hbb] at hb; simp at hb
                | boolVal b2 => rw [hbb] at hb; simp at hb
                | nullVal => rw [hbb] at hb; simp at hb
      | num n => rw [huu] at hu; simp at hu
      | boolVal b2 => rw [huu] at hu; simp at hu
      | nullVal => rw [huu] at hu; simp at hu

theorem validRecord_qualifies {r : JsonRecord} (h : validRecord r = true) :
    qualifies r = true := by
  obtain ⟨hlen, _, huuid, ⟨t, ht, htne⟩, ⟨b, hb, hbne⟩⟩ := validRecord_spec h
  have hune : uuidKey r ≠ "" := by
    intro hc
    rw [hc] at hlen
    simp at hlen
  simp [qualifies, jtruthyO, huuid, ht, hb, jtruthy, htne, hbne, hune]

/-!  ## Helper lemmas: the round trip  -/

theorem srcEntries_keys_mem :
    ∀ {l : List JsonRecord} {k : String},
      k ∈ (srcEntries l).map Prod.fst →
      ∃ r' ∈ l, k = uuidKey r' ++ "_title" ∨ k = uuidKey r' ++ "_body" := by
  intro l
  induction l with
  | nil => intro k hk; simp [srcEntries] at hk
  | cons r rest ih =>
      intro k hk
      simp only [srcEntries, List.map_cons, List.mem_cons] at hk
      rcases hk with hk | hk | hk
      · exact ⟨r, by simp, Or.inl hk⟩
      · exact ⟨r, by simp, Or.inr hk⟩
      · obtain ⟨r', hr', hor⟩ := ih hk
        exact ⟨r', List.mem_cons_of_mem _ hr', hor⟩

/-- The core of the round trip: running the matched-mode loop on the
source entries of a list of valid records with pairwise distinct uuids
rebuilds exactly those records, in order. -/
theorem reconGo_srcEntries :
    ∀ (data : List JsonRecord),
      (∀ r ∈ data, validRecord r = true) →
      (data.map uuidKey).Nodup →
      reconGo (srcEntries data) ((srcEntries data).map Prod.fst) [] =
        data.map (fun r =>
          { title := r.title.getD JVal.nullVal,
            body := r.body.getD JVal.nullVal,
            uuid := uuidKey r }) := by
  intro data
  induction data with
  | nil => intro _ _; rfl
  | cons r rest ih =>
      intro hval hnd
      obtain ⟨hlen, hall, huuid, ⟨t0, ht0, ht0ne⟩, ⟨b0, hb0, hb0ne⟩⟩ :=
        validRecord_spec (hval r (by simp))
      have hsrc : srcEntries (r :: rest) =
          (uuidKey r ++ "_title", JVal.str t0) ::
          (uuidKey r ++ "_body", JVal.str b0) :: srcEntries rest := by
        simp [srcEntries, ht0, hb0]
      have hm1 : matchKey (uuidKey r ++ "_title") = some (uuidKey r, "title") :=
        matchKey_title _ hlen hall
      have hm2 : matchKey (uuidKey r ++ "_body") = some (uuidKey r, "body") :=
        matchKey_body _ hlen hall
      have hlookT : alookup ((uuidKey r ++ "_title", JVal.str t0) ::
          (uuidKey r ++ "_body", JVal.str b0) :: srcEntries rest)
          (uuidKey r ++ "_title") = some (JVal.str t0) := by
        simp [alookup]
      have hlookB : alookup ((uuidKey r ++ "_title", JVal.str t0) ::
          (uuidKey r ++ "_body", JVal.str b0) :: srcEntries rest)
          (uuidKey r ++ "_body") = some (JVal.str b0) := by
        rw [alookup_cons_ne (key_title_ne_body _ _)]
        simp [alookup]
      have hndtail : (rest.map uuidKey).Nodup := by
        simp only [List.map_cons, List.nodup_cons] at hnd
        exact hnd.2
      have hnotmem : uuidKey r ∉ rest.map uuidKey := by
        simp only [List.map_cons, List.nodup_cons] at hnd
        exact hnd.1
      rw [hsrc]
      simp only [List.map_cons]
      simp only [reconGo, hm1, List.not_mem_nil, if_neg, ite_false, hlookT, hlookB,
        Option.isSome_some, Bool.or_self, if_pos]
      congr 1
      · simp [jsOrEmpty, jtruthy, ht0ne, hb0ne, ht0, hb0]
      · simp only [hm2]
        rw [if_pos (by simp : uuidKey r ∈ [uuidKey r])]
        have hcongr : reconGo
            ((uuidKey r ++ "_title", JVal.str t0) ::
             (uuidKey r ++ "_body", JVal.str b0) :: srcEntries rest)
            ((srcEntries rest).map Prod.fst) [uuidKey r] =
            reconGo (srcEntries rest) ((srcEntries rest).map Prod.fst) [] := by
          apply reconGo_congr
          intro k hk u' f' hm'
          obtain ⟨r', hr', hor⟩ := srcEntries_keys_mem hk
          obtain ⟨hlen', hall', _, _, _⟩ := validRecord_spec
            (hval r' (List.mem_cons_of_mem _ hr'))
          have hu' : u' = uuidKey r' := by
            rcases hor with hk' | hk'
            · rw [hk', matchKey_title _ hlen' hall'] at hm'
              exact (Prod.mk.injEq .. ▸ Option.some.injEq .. ▸ hm').1.symm
            · rw [hk', matchKey_body _ hlen' hall'] at hm'
              exact (Prod.mk.injEq .. ▸ Option.some.injEq .. ▸ hm').1.symm
          have hne : u' ≠ uuidKey r := by
            rw [hu']
            intro hc
            exact hnotmem (hc ▸ List.mem_map.mpr ⟨r', hr', rfl⟩)
          refine ⟨?_, ?_, ?_⟩
          · rw [alookup_cons_ne (fun hc => hne (key_title_inj hc).symm),
                alookup_cons_ne (key_title_ne_body_self _ _)]
          · rw [alookup_cons_ne (key_title_ne_body _ _),
                alookup_cons_ne (fun hc => hne (key_body_inj hc).symm)]
          · simp [hne]
        rw [hcongr]
        exact ih (fun r' hr' => hval r' (List.mem_cons_of_mem _ hr')) hndtail

/-- When the matched-mode pass found something, the reconstruction is that
pass's output (the fallback branch is not taken). -/
theorem reconstruct_of_ne_nil {flat : List (String × JVal)} {now : Nat}
    (h : reconGo flat (flat.map Prod.fst) [] ≠ []) :
    reconstruct flat now = reconGo flat (flat.map Prod.fst) [] := by
  unfold reconstruct
  cases hM : reconGo flat (flat.map Prod.fst) [] with
  | nil => exact absurd hM h
  | cons a l => simp [hM]

/-!  ## Helper lemmas: the consolidator  -/

theorem buildTargetMap_not_found {u : JVal} :
    ∀ (l : List CRec) (acc : List (JVal × CRec)),
      alookup acc u = none →
      (∀ t ∈ l, alookup t "uuid" ≠ some u) →
      alookup (l.foldl targetMapStep acc) u = none := by
  intro l
  induction l with
  | nil => intro acc hacc _; simpa using hacc
  | cons item rest ih =>
      intro acc hacc h
      rw [List.foldl_cons]
      refine ih _ ?_ (fun t ht => h t (List.mem_cons_of_mem _ ht))
      cases hu : alookup item "uuid" with
      | none => simp only [targetMapStep, hu]; exact hacc
      | some w =>
          simp only [targetMapStep, hu]
          by_cases hw : jtruthy w
          · rw [if_pos hw, alookup_mapSet]
            have hne : w ≠ u := fun hc => h item (by simp) (hc ▸ hu)
            rw [if_neg hne]
            exact hacc
          · rw [if_neg hw]; exact hacc

/-- A uuid absent from the target array is absent from the target map. -/
theorem buildTargetMap_none {targetData : List CRec} {u : JVal}
    (h : ∀ t ∈ targetData, alookup t "uuid" ≠ some u) :
    alookup (buildTargetMap targetData) u = none :=
  buildTargetMap_not_found targetData [] rfl h

/-!  ## Claims  -/

/-- C3 counterexample: the reconstructor's key pattern is not the
canonical UUID shape.  A 36-hyphen identifier is accepted although it is
not canonical, and an uppercase canonical UUID is rejected although the
canonical shape is case-insensitive. -/
theorem claim_C3_counterexample :
    matchKey "------------------------------------_title" =
      some ("------------------------------------", "title") ∧
    specCanonicalUuid "------------------------------------" = false ∧
    specCanonicalUuid "AAAAAAAA-AAAA-AAAA-AAAA-AAAAAAAAAAAA" = true ∧
    matchKey "AAAAAAAA-AAAA-AAAA-AAAA-AAAAAAAAAAAA_title" = none := by decide

/-- C3 (amended): during reconstruction a key is treated as
identifier_fieldName (fieldName being title or body) exactly when the
identifier part is any 36-character string over lowercase hex digits and
hyphens — no 8-4-4-4-12 grouping is checked and uppercase hex digits are
rejected. -/
theorem claim_C3 : ∀ (key u f : String),
    matchKey key = some (u, f) ↔
      u.data.length = 36 ∧ u.data.all isUuidChar ∧
        ((f = "title" ∧ key = u ++ "_title") ∨ (f = "body" ∧ key = u ++ "_body")) :=
  fun _ _ _ => matchKey_eq_some

/-- C4 counterexample: two qualifying records sharing the uuid "u" produce
a source mapping with 2 keys (the second record overwrote the first), not
2 × 2 = 4, so the key-set-cardinality guarantee fails on duplicate
uuids. -/
theorem claim_C4_counterexample :
    (flatten [⟨some (JVal.str "u"), some (JVal.str "a"), some (JVal.str "b")⟩,
              ⟨some (JVal.str "u"), some (JVal.str "c"), some (JVal.str "d")⟩]).1 =
      [("u_title", JVal.str "c"), ("u_body", JVal.str "d")] ∧
    (List.filter qualifies
        [⟨some (JVal.str "u"), some (JVal.str "a"), some (JVal.str "b")⟩,
         ⟨some (JVal.str "u"), some (JVal.str "c"), some (JVal.str "d")⟩]).length = 2 ∧
    (flatten [⟨some (JVal.str "u"), some (JVal.str "a"), some (JVal.str "b")⟩,
              ⟨some (JVal.str "u"), some (JVal.str "c"), some (JVal.str "d")⟩]).1.length ≠
      2 * 2 := by decide

/-- C4 (amended): provided the qualifying records carry pairwise distinct
uuids, each qualifying record contributes exactly its two keys with its
field values to the source mapping and the same two keys with empty-string
values to the target mapping, insertion order follows input order, and the
key-set cardinality is 2 × (number of qualifying records). -/
theorem claim_C4 (data : List JsonRecord)
    (hnd : ((data.filter qualifies).map uuidKey).Nodup) :
    flatten data = (srcEntries (data.filter qualifies),
                    tgtEntries (data.filter qualifies)) ∧
    (flatten data).1.map Prod.fst = (flatten data).2.map Prod.fst ∧
    (flatten data).1.length = 2 * (data.filter qualifies).length := by
  have h := flatten_eq hnd
  refine ⟨h, ?_, ?_⟩
  · rw [h]
    exact srcEntries_keys_eq_tgtEntries_keys _
  · rw [h]
    exact srcEntries_length _

/-- C4 witness: the amended theorem applied to a single qualifying
record. -/
theorem claim_C4_witness :
    flatten [(⟨some (JVal.str "u"), some (JVal.str "a"), some (JVal.str "b")⟩ : JsonRecord)] =
      (srcEntries (List.filter qualifies
        [(⟨some (JVal.str "u"), some (JVal.str "a"), some (JVal.str "b")⟩ : JsonRecord)]),
       tgtEntries (List.filter qualifies
        [(⟨some (JVal.str "u"), some (JVal.str "a"), some (JVal.str "b")⟩ : JsonRecord)])) ∧
    (flatten [(⟨some (JVal.str "u"), some (JVal.str "a"), some (JVal.str "b")⟩ : JsonRecord)]).1.map
        Prod.fst =
      (flatten [(⟨some (JVal.str "u"), some (JVal.str "a"), some (JVal.str "b")⟩ : JsonRecord)]).2.map
        Prod.fst ∧
    (flatten [(⟨some (JVal.str "u"), some (JVal.str "a"), some (JVal.str "b")⟩ : JsonRecord)]).1.length =
      2 * (List.filter qualifies
        [(⟨some (JVal.str "u"), some (JVal.str "a"), some (JVal.str "b")⟩ : JsonRecord)]).length :=
  claim_C4 [⟨some (JVal.str "u"), some (JVal.str "a"), some (JVal.str "b")⟩] (by decide)

/-- C9: the XML escaping function is total on strings — text containing
none of the five metacharacters is returned unchanged, the input
"a & b < c" escapes to "a &amp; b &lt; c", and empty or undefined input
yields the empty string. -/
theorem claim_C9 (s : String)
    (h : ∀ c ∈ s.data, c ≠ '&' ∧ c ≠ '<' ∧ c ≠ '>' ∧
      c ≠ Char.ofNat 34 ∧ c ≠ Char.ofNat 39) :
    escapeXml s = s ∧
    escapeXml "a & b < c" = "a &amp; b &lt; c" ∧
    escapeXml "" = "" ∧ escapeXmlOpt none = "" :=
  ⟨escapeXml_id h, by decide, by decide, rfl⟩

/-- C9 witness: the theorem applied to metacharacter-free text. -/
theorem claim_C9_witness : escapeXml "hello" = "hello" :=
  (claim_C9 "hello" (by decide)).1

/-- C10: the flattener skips a record whenever uuid, title or body is
falsy (absent, empty string, or another falsy value): such a record
contributes nothing to either mapping, wherever it sits in the input. -/
theorem claim_C10 (pre post : List JsonRecord) (r : JsonRecord)
    (h : jtruthyO r.uuid = false ∨ jtruthyO r.title = false ∨ jtruthyO r.body = false) :
    flatten (pre ++ r :: post) = flatten (pre ++ post) := by
  have hq : qualifies r = false := by
    unfold qualifies
    rcases h with h | h | h <;> simp [h]
  unfold flatten
  rw [List.foldl_append, List.foldl_append, List.foldl_cons]
  congr 1
  simp [flattenStep, hq]

/-- C10 witness: a record with an empty-string uuid contributes nothing. -/
theorem claim_C10_witness :
    flatten ([] ++ (⟨some (JVal.str ""), some (JVal.str "t"), some (JVal.str "b")⟩ :
        JsonRecord) :: []) =
      flatten ([] ++ []) :=
  claim_C10 [] [] ⟨some (JVal.str ""), some (JVal.str "t"), some (JVal.str "b")⟩ (by decide)

/-- C2: the fallback policy is all-or-nothing.  When no key matches the
pattern, the output is one record per entry of the mapping, the key as
title, the value as body, and a generated-timestamp-index identifier.
When at least one key matches, the matched pass produced something (so
no fallback record is emitted) and the output equals the matched pass run
on the mapping restricted to its matching entries, so the data of
non-matching keys is absent. -/
theorem claim_C2 (flat : List (String × JVal)) (now : Nat) :
    ((flat.map Prod.fst).Nodup →
      (∀ k ∈ flat.map Prod.fst, matchKey k = none) →
      reconstruct flat now = fallbackSpec flat now 0) ∧
    ((∃ k ∈ flat.map Prod.fst, (matchKey k).isSome) →
      reconGo flat (flat.map Prod.fst) [] ≠ [] ∧
      reconstruct flat now =
        reconGo (flat.filter (fun e => (matchKey e.1).isSome))
          ((flat.map Prod.fst).filter (fun k => (matchKey k).isSome)) []) := by
  constructor
  · intro hnd hnone
    have hnil := @reconGo_nil_of_nomatch flat (flat.map Prod.fst) [] hnone
    unfold reconstruct
    rw [hnil]
    simp only [List.isEmpty_nil, if_pos]
    exact fallbackRecords_eq_spec now hnd
  · rintro ⟨k, hk, hsome⟩
    obtain ⟨⟨u, f⟩, hm⟩ := Option.isSome_iff_exists.mp hsome
    have hne : reconGo flat (flat.map Prod.fst) [] ≠ [] :=
      reconGo_ne_nil (flat.map Prod.fst) [] (fun k' hk' => hk')
        ⟨k, hk, u, f, hm, by simp⟩
    refine ⟨hne, ?_⟩
    rw [reconstruct_of_ne_nil hne,
        @reconGo_filter_keys flat (flat.map Prod.fst) []]
    apply reconGo_congr
    intro k' hk' u' f' hm'
    obtain ⟨hlen', hall', _⟩ := matchKey_eq_some.mp hm'
    have hmt : (matchKey (u' ++ "_title")).isSome = true := by
      rw [matchKey_title _ hlen' hall']; rfl
    have hmb : (matchKey (u' ++ "_body")).isSome = true := by
      rw [matchKey_body _ hlen' hall']; rfl
    exact ⟨(alookup_filter (p := fun q => (matchKey q).isSome) hmt).symm,
           (alookup_filter (p := fun q => (matchKey q).isSome) hmb).symm, Iff.rfl⟩

/-- C2 witness: a mapping with no matching key reconstructs to the
fallback shape. -/
theorem claim_C2_witness :
    reconstruct [("k", JVal.str "v")] 3 = fallbackSpec [("k", JVal.str "v")] 3 0 :=
  (claim_C2 [("k", JVal.str "v")] 3).1 (by decide) (by decide)

/-- C5: in matched mode the reconstructor produces, in first-occurrence
order of each identifier in the mapping's key iteration order, exactly one
record per distinct identifier, with title and body looked up under the
identifier's two keys (empty string when absent) and the uuid field set to
the identifier; and when the matched pass produced anything the output is
exactly that pass (no fallback). -/
theorem claim_C5 (flat : List (String × JVal)) (now : Nat) :
    reconGo flat (flat.map Prod.fst) [] =
      (firstUuids (flat.map Prod.fst) []).map (fun u =>
        { title := jsOrEmpty (alookup flat (u ++ "_title")),
          body := jsOrEmpty (alookup flat (u ++ "_body")),
          uuid := u }) ∧
    (firstUuids (flat.map Prod.fst) []).Nodup ∧
    (reconGo flat (flat.map Prod.fst) [] ≠ [] →
      reconstruct flat now = reconGo flat (flat.map Prod.fst) []) :=
  ⟨reconGo_eq_firstUuids (flat.map Prod.fst) [] (fun _ hk => hk),
   (firstUuids_nodup (flat.map Prod.fst) []).1,
   fun h => reconstruct_of_ne_nil h⟩

/-- C5 witness: a one-unit mapping in matched mode. -/
theorem claim_C5_witness :
    reconstruct [("aaaaaaaa-aaaa-aaaa-aaaa-aaaaaaaaaaaa_title", JVal.str "t")] 0 =
      reconGo [("aaaaaaaa-aaaa-aaaa-aaaa-aaaaaaaaaaaa_title", JVal.str "t")]
        ([("aaaaaaaa-aaaa-aaaa-aaaa-aaaaaaaaaaaa_title", JVal.str "t")].map Prod.fst)
        [] :=
  (claim_C5 [("aaaaaaaa-aaaa-aaaa-aaaa-aaaaaaaaaaaa_title", JVal.str "t")] 0).2.2
    (by decide)

/-- C1 counterexample: two valid records sharing an identifier collide in
the flat mapping, so the round trip loses the first record's triple: the
output does not contain the same (uuid, title, body) triples as the
input. -/
theorem claim_C1_counterexample :
    reconstruct (flatten
      [⟨some (JVal.str "aaaaaaaa-aaaa-aaaa-aaaa-aaaaaaaaaaaa"),
        some (JVal.str "a"), some (JVal.str "b")⟩,
       ⟨some (JVal.str "aaaaaaaa-aaaa-aaaa-aaaa-aaaaaaaaaaaa"),
        some (JVal.str "c"), some (JVal.str "d")⟩]).1 5 =
      [{ title := JVal.str "c", body := JVal.str "d",
         uuid := "aaaaaaaa-aaaa-aaaa-aaaa-aaaaaaaaaaaa" }] ∧
    ({ title := JVal.str "a", body := JVal.str "b",
       uuid := "aaaaaaaa-aaaa-aaaa-aaaa-aaaaaaaaaaaa" } : OutRecord) ∉
      reconstruct (flatten
        [⟨some (JVal.str "aaaaaaaa-aaaa-aaaa-aaaa-aaaaaaaaaaaa"),
          some (JVal.str "a"), some (JVal.str "b")⟩,
         ⟨some (JVal.str "aaaaaaaa-aaaa-aaaa-aaaa-aaaaaaaaaaaa"),
          some (JVal.str "c"), some (JVal.str "d")⟩]).1 5 := by decide

/-- C1 (amended): for record arrays whose records all carry an identifier
of the accepted 36-character shape, non-empty title and body strings, and
pairwise distinct identifiers, flattening then reconstructing the source
mapping yields exactly the input's (uuid, title, body) triples, in input
order. -/
theorem claim_C1 (data : List JsonRecord) (now : Nat)
    (hval : ∀ r ∈ data, validRecord r = true)
    (hnd : (data.map uuidKey).Nodup) :
    reconstruct (flatten data).1 now =
      data.map (fun r =>
        { title := r.title.getD JVal.nullVal,
          body := r.body.getD JVal.nullVal,
          uuid := uuidKey r }) := by
  have hq : ∀ r ∈ data, qualifies r = true := fun r hr => validRecord_qualifies (hval r hr)
  have hfil : data.filter qualifies = data := List.filter_eq_self.mpr hq
  have hflat : (flatten data).1 = srcEntries data := by
    rw [flatten_eq (by rw [hfil]; exact hnd), hfil]
  rw [hflat]
  cases data with
  | nil => rfl
  | cons r rest =>
      obtain ⟨hlen, hall, _, ⟨t0, ht0, _⟩, ⟨b0, hb0, _⟩⟩ :=
        validRecord_spec (hval r (by simp))
      have hkt : uuidKey r ++ "_title" ∈ (srcEntries (r :: rest)).map Prod.fst := by
        simp [srcEntries]
      have hne : reconGo (srcEntries (r :: rest))
          ((srcEntries (r :: rest)).map Prod.fst) [] ≠ [] :=
        reconGo_ne_nil _ [] (fun k hk => hk)
          ⟨uuidKey r ++ "_title", hkt, uuidKey r, "title",
           matchKey_title _ hlen hall, by simp⟩
      rw [reconstruct_of_ne_nil hne]
      exact reconGo_srcEntries (r :: rest) hval hnd

/-- C1 witness: the round trip on one valid record. -/
theorem claim_C1_witness :
    reconstruct (flatten
      [(⟨some (JVal.str "aaaaaaaa-aaaa-aaaa-aaaa-aaaaaaaaaaaa"),
         some (JVal.str "t"), some (JVal.str "b")⟩ : JsonRecord)]).1 9 =
      [(⟨some (JVal.str "aaaaaaaa-aaaa-aaaa-aaaa-aaaaaaaaaaaa"),
         some (JVal.str "t"), some (JVal.str "b")⟩ : JsonRecord)].map (fun r =>
        { title := r.title.getD JVal.nullVal,
          body := r.body.getD JVal.nullVal,
          uuid := uuidKey r }) :=
  claim_C1
    [⟨some (JVal.str "aaaaaaaa-aaaa-aaaa-aaaa-aaaaaaaaaaaa"),
      some (JVal.str "t"), some (JVal.str "b")⟩] 9 (by decide) (by decide)

/-- The generator never reports the no-valid-source error once a source
item with a truthy uuid exists. -/
theorem generateXliffUnits_ne_noValidSource {sourceData targetData : List CRec}
    {fitem : CRec} (hf : sourceData.find? srcHasUuid = some fitem) :
    generateXliffUnits sourceData targetData ≠ Except.error GenErr.noValidSource := by
  intro h
  simp only [generateXliffUnits, hf] at h
  cases hc : consolidateItems (translatableFieldsOf fitem) (buildTargetMap targetData)
      sourceData with
  | error e => rw [hc] at h; exact absurd h (by simp)
  | ok r => rw [hc] at h; exact absurd h (by simp)

/-- C6 counterexample: a source field holding the non-empty string " "
(whitespace only) is skipped — its trimmed value is empty — so the claimed
"empty or absent" skip condition is too narrow: no u2_title unit is
emitted although the source value for that field is neither empty nor
absent. -/
theorem claim_C6_counterexample :
    alookup [("uuid", JVal.str "u2"), ("title", JVal.str " ")] "title" =
      some (JVal.str " ") ∧
    (" " : String) ≠ "" ∧
    generateXliffUnits
      [[("uuid", JVal.str "u1"), ("title", JVal.str "A")],
       [("uuid", JVal.str "u2"), ("title", JVal.str " ")]]
      [[("uuid", JVal.str "u1"), ("title", JVal.str "X")],
       [("uuid", JVal.str "u2"), ("title", JVal.str "Y")]] =
      Except.ok ([{ id := "u1_title", src := "A", tgt := "X",
                    note := "title for UUID: u1" }], []) ∧
    "u2_title" ∉ [({ id := "u1_title", src := "A", tgt := "X",
                     note := "title for UUID: u1" } : TransUnit)].map TransUnit.id := by
  decide

/-- C6 (amended): for a matched pair and a detected translatable field, no
unit is emitted when the source value for that field is empty, absent, not
a string, or whitespace-only; otherwise exactly one unit is emitted with
id = identifier_fieldName, the source text, the target record's value for
that field (or empty string if absent or falsy) as target, and the note
"fieldName for UUID: identifier"; in particular the spec's concrete
source/target pair yields exactly the units X_title and X_body. -/
theorem claim_C6 :
    (∀ (uuidV : JVal) (si ti : CRec) (f : String),
        (∀ s, alookup si f = some (JVal.str s) → trimS s = "") →
        fieldUnit uuidV si ti f = Except.ok []) ∧
    (∀ (uid : String) (si ti : CRec) (f s t : String),
        alookup si f = some (JVal.str s) → trimS s ≠ "" →
        jvalAsText (jsOrEmpty (alookup ti f)) = Except.ok t →
        fieldUnit (JVal.str uid) si ti f =
          Except.ok [{ id := uid ++ "_" ++ f, src := s, tgt := t,
                       note := f ++ " for UUID: " ++ uid }]) ∧
    generateXliffUnits
      [[("uuid", JVal.str "X"), ("title", JVal.str "A"), ("body", JVal.str "B")]]
      [[("uuid", JVal.str "X"), ("title", JVal.str "가"), ("body", JVal.str "나")]] =
    Except.ok
      ([{ id := "X_title", src := "A", tgt := "가", note := "title for UUID: X" },
        { id := "X_body", src := "B", tgt := "나", note := "body for UUID: X" }],
       []) := by
  refine ⟨?_, ?_, by decide⟩
  · intro uuidV si ti f h
    cases hl : alookup si f with
    | none => simp only [fieldUnit, hl]
    | some v =>
        cases v with
        | str s =>
            have hs := h s hl
            simp only [fieldUnit, hl]
            rw [if_pos hs]
        | num n => simp only [fieldUnit, hl]
        | boolVal b => simp only [fieldUnit, hl]
        | nullVal => simp only [fieldUnit, hl]
  · intro uid si ti f s t hl hs ht
    simp only [fieldUnit, hl]
    rw [if_neg hs, ht]
    rfl

/-- C6 witness: the amended field-unit rule at a concrete matched pair
with no target value for the field. -/
theorem claim_C6_witness :
    fieldUnit (JVal.str "u") [("f", JVal.str "x")] [] "f" =
      Except.ok [{ id := "u_f", src := "x", tgt := "", note := "f for UUID: u" }] :=
  claim_C6.2.1 "u" [("f", JVal.str "x")] [] "f" "x" "" (by decide) (by decide)
    (by decide)

/-- C7: a source record whose truthy identifier is absent from the target
array contributes no translation unit, records exactly the missing-target
warning, and the loop simply continues with the remaining records. -/
theorem claim_C7 (tf : List String) (targetData : List CRec) (item : CRec)
    (rest : List CRec) (u : JVal)
    (hu : alookup item "uuid" = some u) (htr : jtruthy u = true)
    (habs : ∀ t ∈ targetData, alookup t "uuid" ≠ some u) :
    itemUnits tf (buildTargetMap targetData) item =
      Except.ok ([], [missingTargetWarning u]) ∧
    consolidateItems tf (buildTargetMap targetData) (item :: rest) =
      (consolidateItems tf (buildTargetMap targetData) rest).map
        (fun r => (r.1, missingTargetWarning u :: r.2)) := by
  have hmap := buildTargetMap_none habs
  have h1 : itemUnits tf (buildTargetMap targetData) item =
      Except.ok ([], [missingTargetWarning u]) := by
    simp only [itemUnits, hu, if_pos htr, hmap]
  refine ⟨h1, ?_⟩
  simp only [consolidateItems, h1]
  cases hc : consolidateItems tf (buildTargetMap targetData) rest with
  | error e => rfl
  | ok r =>
      obtain ⟨us2, ws2⟩ := r
      rfl

/-- C7 witness: one source record with uuid Y and an empty target array. -/
theorem claim_C7_witness :
    itemUnits ["title"] (buildTargetMap []) [("uuid", JVal.str "Y")] =
      Except.ok ([], [missingTargetWarning (JVal.str "Y")]) ∧
    consolidateItems ["title"] (buildTargetMap []) ([("uuid", JVal.str "Y")] :: []) =
      (consolidateItems ["title"] (buildTargetMap []) []).map
        (fun r => (r.1, missingTargetWarning (JVal.str "Y") :: r.2)) :=
  claim_C7 ["title"] [] [("uuid", JVal.str "Y")] [] (JVal.str "Y") (by decide)
    (by decide) (by simp)

/-- C8 counterexample: in the first source record the field "f" holds the
non-empty string " ", yet it is not detected as translatable (its trimmed
value is empty), so "every field other than the identifier whose value is
a non-empty string" misstates the detection; generation still proceeds. -/
theorem claim_C8_counterexample :
    translatableFieldsOf [("uuid", JVal.str "x1"), ("f", JVal.str " ")] = [] ∧
    alookup [("uuid", JVal.str "x1"), ("f", JVal.str " ")] "f" =
      some (JVal.str " ") ∧
    (" " : String) ≠ "" ∧
    generateXliffUnits [[("uuid", JVal.str "x1"), ("f", JVal.str " ")]] [] =
      Except.ok ([], [missingTargetWarning (JVal.str "x1")]) := by decide

/-- C8 (amended): the generator raises its no-valid-source error exactly
when no source record has a truthy uuid; when a first such record exists,
that failure cannot occur and the translatable-field set consists of the
fields of that record other than uuid whose value is a string that is
non-empty after trimming whitespace. -/
theorem claim_C8 (sourceData targetData : List CRec) :
    (generateXliffUnits sourceData targetData = Except.error GenErr.noValidSource ↔
      sourceData.find? srcHasUuid = none) ∧
    (∀ fitem, sourceData.find? srcHasUuid = some fitem →
      generateXliffUnits sourceData targetData ≠ Except.error GenErr.noValidSource ∧
      ∀ f, f ∈ translatableFieldsOf fitem ↔
        (f ∈ fitem.map Prod.fst ∧ f ≠ "uuid" ∧
         ∃ s, alookup fitem f = some (JVal.str s) ∧ trimS s ≠ "")) := by
  constructor
  · constructor
    · intro h
      cases hf : sourceData.find? srcHasUuid with
      | none => rfl
      | some fitem => exact absurd h (generateXliffUnits_ne_noValidSource hf)
    · intro h
      simp [generateXliffUnits, h]
  · intro fitem hf
    refine ⟨generateXliffUnits_ne_noValidSource hf, ?_⟩
    intro f
    unfold translatableFieldsOf
    rw [List.mem_filter]
    constructor
    · rintro ⟨hmem, hpred⟩
      simp only [Bool.and_eq_true, decide_eq_true_eq] at hpred
      obtain ⟨hne, hmatch⟩ := hpred
      refine ⟨hmem, hne, ?_⟩
      cases hl : alookup fitem f with
      | none => rw [hl] at hmatch; simp at hmatch
      | some v =>
          cases v with
          | str s =>
              rw [hl] at hmatch
              simp only [decide_eq_true_eq] at hmatch
              exact ⟨s, rfl, hmatch⟩
          | num n => rw [hl] at hmatch; simp at hmatch
          | boolVal b => rw [hl] at hmatch; simp at hmatch
          | nullVal => rw [hl] at hmatch; simp at hmatch
    · rintro ⟨hmem, hne, s, hl, hs⟩
      refine ⟨hmem, ?_⟩
      simp only [Bool.and_eq_true, decide_eq_true_eq]
      exact ⟨hne, by rw [hl]; simpa using hs⟩

/-- C8 witness: an empty source array raises the no-valid-source error. -/
theorem claim_C8_witness :
    generateXliffUnits [] [] = Except.error GenErr.noValidSource :=
  (claim_C8 [] []).1.mpr rfl

example : matchKey "AAAAAAAA-AAAA-AAAA-AAAA-AAAAAAAAAAAA_title" = none := by decide

example :
    flatten [⟨some (JVal.str "u"), some (JVal.str "a"), some (JVal.str "b")⟩] =
      ([("u_title", JVal.str "a"), ("u_body", JVal.str "b")],
       [("u_title", JVal.str ""), ("u_body", JVal.str "")]) := by decide

example :
    reconstruct [("k1", JVal.str "v1"), ("k2", JVal.str "v2")] 7 =
      [⟨JVal.str "k1", JVal.str "v1", "generated-7-0"⟩,
       ⟨JVal.str "k2", JVal.str "v2", "generated-7-1"⟩] := by decide

example :
    reconstruct [("aaaaaaaa-aaaa-aaaa-aaaa-aaaaaaaaaaaa_title", JVal.str "t"),
                 ("aaaaaaaa-aaaa-aaaa-aaaa-aaaaaaaaaaaa_body", JVal.str "b")] 7 =
      [⟨JVal.str "t", JVal.str "b", "aaaaaaaa-aaaa-aaaa-aaaa-aaaaaaaaaaaa"⟩] := by decide
